import Mathlib

/-!
# StickUp — verification of the binding / parser / manager core

A shallow embedding of the StickUp input library (`src/binding.rs`,
`src/backends/windows/hidp_parser.rs`, `src/manager.rs`, `src/device.rs`)
together with proofs about the spec's claims.

Modelling conventions:
* `f32`/`f64` arithmetic is idealised as exact real arithmetic (`ℝ`), and as
  rational arithmetic (`ℚ`) where the source computation is rational-closed.
* Rust machine integers (`i32`, `u16`, `i16`) are modelled as `ℤ`/`ℕ`; none of
  the verified code paths rely on wrap-around.
* `HashMap` is modelled as an association list queried through `lookupM`;
  insertion prepends, so the most recent insertion shadows earlier ones, which
  matches `HashMap::insert` with respect to every lookup.  Statements about
  maps are phrased extensionally (about lookups), matching the `HashMap`
  abstraction (which has no observable order).
-/

namespace StickUp

/-! ## Association-list maps (model of `HashMap`) -/

/-- Lookup in an association-list map: the binding closest to the head wins
(the most recently inserted one). -/
def lookupM {κ V : Type} [DecidableEq κ] (k : κ) : List (κ × V) → Option V
  | [] => none
  | (k', v) :: l => if k' = k then some v else lookupM k l

/-- `HashMap::insert`: the new binding shadows any earlier one. -/
def insertM {κ V : Type} [DecidableEq κ] (k : κ) (v : V) (l : List (κ × V)) :
    List (κ × V) :=
  (k, v) :: l

/-- `map.entry(k).or_insert(v)`: insert only when the key is absent. -/
def orInsertM {κ V : Type} [DecidableEq κ] (k : κ) (v : V) (l : List (κ × V)) :
    List (κ × V) :=
  if (lookupM k l).isSome then l else (k, v) :: l

theorem lookupM_insertM_self {κ V : Type} [DecidableEq κ] (k : κ) (v : V)
    (l : List (κ × V)) : lookupM k (insertM k v l) = some v := by
  simp [insertM, lookupM]

theorem lookupM_insertM_ne {κ V : Type} [DecidableEq κ] {k k' : κ} (v : V)
    (l : List (κ × V)) (h : k ≠ k') : lookupM k' (insertM k v l) = lookupM k' l := by
  simp [insertM, lookupM, h]

theorem lookupM_orInsertM_of_isSome {κ V : Type} [DecidableEq κ] (k k' : κ) (v : V)
    (l : List (κ × V)) (h : (lookupM k l).isSome) :
    lookupM k' (orInsertM k v l) = lookupM k' l := by
  simp [orInsertM, h]

theorem lookupM_orInsertM {κ V : Type} [DecidableEq κ] (k k' : κ) (v : V)
    (l : List (κ × V)) (h : k ≠ k') :
    lookupM k' (orInsertM k v l) = lookupM k' l := by
  unfold orInsertM
  split
  · rfl
  · simp [lookupM, h]

theorem lookupM_orInsertM_preserves {κ V : Type} [DecidableEq κ] (k k' : κ)
    (v w : V) (l : List (κ × V)) (h : lookupM k' l = some w) :
    lookupM k' (orInsertM k v l) = some w := by
  unfold orInsertM
  split
  · exact h
  · by_cases hk : k = k'
    · subst hk
      simp_all [lookupM]
    · simpa [lookupM, hk] using h

/-! ## `AxisTransform` (`src/binding.rs`, lines 161–282)

`f32` is idealised as `ℝ`.  `x.signum()` in Rust returns `1.0` for
non-negative inputs (including `+0.0`) and `-1.0` for negative ones; `rsign`
models that (the `-0.0`/NaN cases do not arise in the idealisation). -/

/-- Rust `f32::signum`, idealised over `ℝ`. -/
noncomputable def rsign (x : ℝ) : ℝ := if x < 0 then -1 else 1

/-- `AxisCurve` (`binding.rs` lines 175–187). -/
inductive AxisCurve where
  | linear
  | power (gamma : ℝ)

/-- `AxisTransform` (`binding.rs` lines 200–223). -/
structure AxisTransform where
  invert : Bool
  deadzone : ℝ
  gain : ℝ
  curve : AxisCurve
  min : ℝ
  max : ℝ

/-- `AxisTransform::default()` (`binding.rs` lines 225–236): deadzone `0.05`,
gain `1`, curve `Power{gamma: 1}`, clamp `[-1, 1]`. -/
noncomputable def AxisTransform.default : AxisTransform :=
  { invert := false, deadzone := 0.05, gain := 1,
    curve := AxisCurve.power 1, min := -1, max := 1 }

/-- `AxisTransform::apply` (`binding.rs` lines 246–281), translated step for
step: deadzone with continuity remap, invert, curve, gain, clamp.  Rust
`clamp(lo, hi)` with `lo ≤ hi` is `max lo (min v hi)`. -/
noncomputable def AxisTransform.apply (t : AxisTransform) (x : ℝ) : ℝ :=
  let dz := Min.min (Max.max t.deadzone 0) 0.95
  let v1 := if |x| ≤ dz then 0 else rsign x * ((|x| - dz) / (1 - dz))
  let v2 := if t.invert then -v1 else v1
  let v3 :=
    match t.curve with
    | AxisCurve.linear => v2
    | AxisCurve.power gamma => rsign v2 * |v2| ^ Max.max gamma 0.0001
  let v4 := v3 * t.gain
  Max.max (Min.min t.min t.max) (Min.min v4 (Max.max t.min t.max))

/-! ### The spec's five-step pipeline, written from the spec's words
(spec §4.4 "Axis shaping pipeline", steps 1–5).  `sign` here is the
mathematical sign function `Real.sign` used by the spec's formulas. -/

/-- Spec step 1: continuity deadzone. -/
noncomputable def deadzoneStep (t : AxisTransform) (x : ℝ) : ℝ :=
  let dz := min (max t.deadzone 0) 0.95
  if |x| ≤ dz then 0 else Real.sign x * ((|x| - dz) / (1 - dz))

/-- Spec step 2: negate when `invert` is set. -/
def invertStep (t : AxisTransform) (v : ℝ) : ℝ :=
  if t.invert then -v else v

/-- Spec step 3: `Linear` is the identity; `Power{gamma}` maps `v` to
`sign(v) * |v| ^ max(gamma, 1e-4)`. -/
noncomputable def curveStep (t : AxisTransform) (v : ℝ) : ℝ :=
  match t.curve with
  | AxisCurve.linear => v
  | AxisCurve.power gamma => Real.sign v * |v| ^ max gamma 0.0001

/-- Spec step 4: multiply by `gain`. -/
def gainStep (t : AxisTransform) (v : ℝ) : ℝ := v * t.gain

/-- Spec step 5: clamp into `[min(min,max), max(min,max)]`. -/
noncomputable def clampStep (t : AxisTransform) (v : ℝ) : ℝ :=
  max (min t.min t.max) (min v (max t.min t.max))

theorem rsign_eq_sign_of_ne {x : ℝ} (hx : x ≠ 0) : rsign x = Real.sign x := by
  rcases lt_trichotomy x 0 with h | h | h
  · rw [rsign, if_pos h, Real.sign_of_neg h]
  · exact absurd h hx
  · rw [rsign, if_neg (not_lt.mpr h.le), Real.sign_of_pos h]

theorem rsign_mul_abs (x : ℝ) : rsign x * |x| = x := by
  rcases lt_trichotomy x 0 with h | h | h
  · rw [rsign, if_pos h, abs_of_neg h]; ring
  · simp [h, rsign]
  · rw [rsign, if_neg (not_lt.mpr h.le), abs_of_pos h]; ring

theorem rsign_pow_eq_sign_pow (v g : ℝ) (hg : 0 < g) :
    rsign v * |v| ^ g = Real.sign v * |v| ^ g := by
  rcases eq_or_ne v 0 with h | h
  · subst h
    rw [abs_zero, Real.zero_rpow (ne_of_gt hg)]
    ring
  · rw [rsign_eq_sign_of_ne h]

/-- C1: for every input `x`, `AxisTransform.apply x` equals the spec's
five-step pipeline applied in order: continuity deadzone, invert, curve,
gain, clamp. -/
theorem axis_transform_apply_is_pipeline (t : AxisTransform) (x : ℝ) :
    t.apply x
      = clampStep t (gainStep t (curveStep t (invertStep t (deadzoneStep t x)))) := by
  obtain ⟨inv, dzv, gv, curve, mn, mx⟩ := t
  have hdz0 : (0:ℝ) ≤ Min.min (Max.max dzv 0) 0.95 :=
    le_min (le_max_right _ _) (by norm_num)
  have h1 : (if |x| ≤ Min.min (Max.max dzv 0) 0.95 then (0:ℝ)
        else rsign x * ((|x| - Min.min (Max.max dzv 0) 0.95) /
          (1 - Min.min (Max.max dzv 0) 0.95)))
      = (if |x| ≤ Min.min (Max.max dzv 0) 0.95 then (0:ℝ)
        else Real.sign x * ((|x| - Min.min (Max.max dzv 0) 0.95) /
          (1 - Min.min (Max.max dzv 0) 0.95))) := by
    split_ifs with h
    · rfl
    · have hx : x ≠ 0 := by
        intro h0
        exact h (by simpa [h0] using hdz0)
      rw [rsign_eq_sign_of_ne hx]
  cases curve with
  | linear =>
      simp only [AxisTransform.apply, clampStep, gainStep, curveStep,
        invertStep, deadzoneStep, h1]
  | power gamma =>
      have hg : (0:ℝ) < Max.max gamma 0.0001 :=
        lt_of_lt_of_le (by norm_num) (le_max_right _ _)
      simp only [AxisTransform.apply, clampStep, gainStep, curveStep,
        invertStep, deadzoneStep, h1, rsign_pow_eq_sign_pow _ _ hg]

/-- The transform `invert=false, deadzone=0, curve=Linear, gain=1, min=-1,
max=1` (spec §8, round-trip laws). -/
noncomputable def identityTransform : AxisTransform :=
  { invert := false, deadzone := 0, gain := 1,
    curve := AxisCurve.linear, min := -1, max := 1 }

/-- C8: the `AxisTransform` with `invert=false, deadzone=0, curve=Linear,
gain=1, min=-1, max=1` is the identity on every input in `[-1, 1]`. -/
theorem identity_transform_is_id (x : ℝ) (hlo : -1 ≤ x) (hhi : x ≤ 1) :
    identityTransform.apply x = x := by
  have hdz : Min.min (Max.max (0:ℝ) 0) 0.95 = 0 := by norm_num
  simp only [identityTransform, AxisTransform.apply, Bool.false_eq_true,
    if_false, hdz, mul_one, sub_zero, div_one]
  split_ifs with h
  · have hx0 : x = 0 := abs_nonpos_iff.mp h
    simp [hx0]
  · rw [rsign_mul_abs]
    have hmn : Min.min (-1:ℝ) 1 = -1 := by norm_num
    have hmx : Max.max (-1:ℝ) 1 = 1 := by norm_num
    rw [hmn, hmx, min_eq_left hhi, max_eq_right hlo]

/-- Witness for C8 at the concrete input `1/2`. -/
theorem identity_transform_is_id_witness :
    identityTransform.apply (1/2) = 1/2 :=
  identity_transform_is_id (1/2) (by norm_num) (by norm_num)

/-! ## HID value decoding (`src/backends/windows/hidp_parser.rs`)

`normalize_axis_value` (lines 807–816) computes in `f64` on values cast from
`i32`; every step is rational-closed, so it is embedded exactly over `ℚ`.
`hat_value_to_slot` (lines 822–842) computes the degree sector in `f32`;
again the arithmetic is rational-closed. -/

/-- `normalize_axis_value` (`hidp_parser.rs` lines 807–816): normalize an
integer axis value from `[lo, hi]` into `[-1, 1]` with clamping; a degenerate
range (`|hi - lo| < 1e-9`) yields `0`. -/
def normalize_axis_value (v lo hi : ℤ) : ℚ :=
  if |(hi:ℚ) - (lo:ℚ)| < 1/1000000000 then 0
  else Max.max (-1)
    (Min.min (((v:ℚ) - (lo:ℚ)) / ((hi:ℚ) - (lo:ℚ)) * 2 - 1) 1)

/-- The truncating-remainder fix-up in `hat_value_to_slot` (`slot % 8` then
`slot += 8` when negative) agrees with mathematical `mod 8`. -/
theorem tmod_fixup_eq_emod (m : ℤ) :
    (if Int.tmod m 8 < 0 then Int.tmod m 8 + 8 else Int.tmod m 8) = m % 8 := by
  rcases le_or_lt 0 m with hm | hm
  · rw [Int.tmod_eq_emod hm (by norm_num)]
    have h0 : 0 ≤ m % 8 := Int.emod_nonneg m (by norm_num)
    rw [if_neg (not_lt.mpr h0)]
  · have hneg : Int.tmod m 8 = -Int.tmod (-m) 8 := by
      have := Int.neg_tdiv m 8
      rw [Int.tmod_def, Int.tmod_def, this]
      ring
    have he : Int.tmod (-m) 8 = (-m) % 8 :=
      Int.tmod_eq_emod (by omega) (by norm_num)
    have h1 : 0 ≤ (-m) % 8 := Int.emod_nonneg (-m) (by norm_num)
    have h2 : (-m) % 8 < 8 := Int.emod_lt_of_pos (-m) (by norm_num)
    rw [hneg, he]
    split_ifs with h <;> omega

/-- Degree-to-slot conversion extracted from `hat_value_to_slot`
(`hidp_parser.rs` lines 835–841): `floor((deg + 22.5) / 45)`, truncating
remainder by 8, negative fix-up. -/
def degToSlot (deg : ℚ) : ℤ :=
  let slot := Int.tmod ⌊(deg + 22.5) / 45⌋ 8
  if slot < 0 then slot + 8 else slot

/-- `hat_value_to_slot` (`hidp_parser.rs` lines 822–842): sentinel and
out-of-range values are neutral `-1`; slot encodings pass `0..7` through;
degree encodings go through `degToSlot`. -/
def hat_value_to_slot (raw lo hi : ℤ) (isDegrees : Bool) : ℤ :=
  if raw < lo ∨ hi < raw ∨ raw = -1 ∨ raw = 8 ∨ raw = 15 ∨ raw = 255 ∨ raw = 65535 then
    -1
  else if ¬isDegrees then
    if 0 ≤ raw ∧ raw ≤ 7 then raw else -1
  else degToSlot (raw : ℚ)

theorem degToSlot_eq_emod (deg : ℚ) :
    degToSlot deg = ⌊(deg + 22.5) / 45⌋ % 8 := by
  unfold degToSlot
  exact tmod_fixup_eq_emod _

theorem degToSlot_bounds (deg : ℚ) :
    0 ≤ degToSlot deg ∧ degToSlot deg ≤ 7 := by
  rw [degToSlot_eq_emod]
  constructor
  · exact Int.emod_nonneg _ (by norm_num)
  · have := Int.emod_lt_of_pos (⌊(deg + 22.5) / 45⌋) (show (0:ℤ) < 8 by norm_num)
    omega

/-- C3: hat decoding.  (1) Out-of-range and sentinel raw values map to
neutral `-1`.  (2) With slot encoding, in-range values `0..7` map to
themselves.  (3) With degrees encoding, the slot is
`floor((deg + 22.5) / 45) mod 8`; in particular the formula sends `337.5`,
`22.499` and `359` to slot `0` and `22.5` to slot `1`.  (4) Every result
lies in `{-1, 0, ..., 7}`. -/
theorem hat_value_to_slot_spec :
    (∀ raw lo hi d,
      (raw < lo ∨ hi < raw ∨ raw = -1 ∨ raw = 8 ∨ raw = 15 ∨ raw = 255 ∨ raw = 65535) →
      hat_value_to_slot raw lo hi d = -1)
    ∧ (∀ raw lo hi, lo ≤ raw → raw ≤ hi → 0 ≤ raw → raw ≤ 7 →
      hat_value_to_slot raw lo hi false = raw)
    ∧ (∀ raw lo hi, lo ≤ raw → raw ≤ hi →
      ¬(raw = -1 ∨ raw = 8 ∨ raw = 15 ∨ raw = 255 ∨ raw = 65535) →
      hat_value_to_slot raw lo hi true = ⌊((raw:ℚ) + 22.5) / 45⌋ % 8)
    ∧ degToSlot 337.5 = 0 ∧ degToSlot 22.499 = 0 ∧ degToSlot 22.5 = 1
    ∧ degToSlot 359 = 0
    ∧ (∀ raw lo hi d,
      -1 ≤ hat_value_to_slot raw lo hi d ∧ hat_value_to_slot raw lo hi d ≤ 7) := by
  refine ⟨?_, ?_, ?_, ?_, ?_, ?_, ?_, ?_⟩
  · intro raw lo hi d h
    rw [hat_value_to_slot, if_pos h]
  · intro raw lo hi h1 h2 h3 h4
    have hs : ¬(raw < lo ∨ hi < raw ∨ raw = -1 ∨ raw = 8 ∨ raw = 15 ∨
        raw = 255 ∨ raw = 65535) := by omega
    rw [hat_value_to_slot, if_neg hs, if_pos (by simp), if_pos ⟨h3, h4⟩]
  · intro raw lo hi h1 h2 h3
    have hs : ¬(raw < lo ∨ hi < raw ∨ raw = -1 ∨ raw = 8 ∨ raw = 15 ∨
        raw = 255 ∨ raw = 65535) := by omega
    rw [hat_value_to_slot, if_neg hs, if_neg (by simp)]
    exact degToSlot_eq_emod _
  · rw [degToSlot_eq_emod]
    have hf : ⌊((337.5:ℚ) + 22.5) / 45⌋ = 8 := by
      have : ((337.5:ℚ) + 22.5) / 45 = 8 := by norm_num
      rw [this]
      exact Int.floor_intCast 8
    rw [hf]
    decide
  · rw [degToSlot_eq_emod]
    have hf : ⌊((22.499:ℚ) + 22.5) / 45⌋ = 0 := by
      rw [Int.floor_eq_iff]
      constructor <;> norm_num
    rw [hf]
    decide
  · rw [degToSlot_eq_emod]
    have hf : ⌊((22.5:ℚ) + 22.5) / 45⌋ = 1 := by
      have : ((22.5:ℚ) + 22.5) / 45 = 1 := by norm_num
      rw [this]
      exact Int.floor_intCast 1
    rw [hf]
    decide
  · rw [degToSlot_eq_emod]
    have hf : ⌊((359:ℚ) + 22.5) / 45⌋ = 8 := by
      rw [Int.floor_eq_iff]
      constructor <;> norm_num
    rw [hf]
    decide
  · intro raw lo hi d
    rw [hat_value_to_slot]
    split_ifs with h1 h2 h3 <;>
      first
        | omega
        | (have hb := degToSlot_bounds (raw : ℚ); omega)

/-- Witness for C3 at concrete inputs: raw `5` in slot range `[0,7]` maps to
`5`, and raw `90` (degrees, range `[0,359]`) maps to slot `2`. -/
theorem hat_value_to_slot_spec_witness :
    hat_value_to_slot 5 0 7 false = 5
    ∧ hat_value_to_slot 90 0 359 true = ⌊((90:ℚ) + 22.5) / 45⌋ % 8 :=
  ⟨(hat_value_to_slot_spec).2.1 5 0 7 (by decide) (by decide) (by decide) (by decide),
   (hat_value_to_slot_spec).2.2.1 90 0 359 (by decide) (by decide) (by decide)⟩

/-- C4: axis normalization.  When `lo = hi` the result is `0`; otherwise it
is `clamp(2 * (v - lo) / (hi - lo) - 1, -1, 1)`; consequently every
normalized axis value lies in `[-1, 1]`. -/
theorem normalize_axis_value_spec (v lo hi : ℤ) :
    (lo = hi → normalize_axis_value v lo hi = 0)
    ∧ (lo ≠ hi → normalize_axis_value v lo hi
        = Max.max (-1) (Min.min (2 * ((v:ℚ) - (lo:ℚ)) / ((hi:ℚ) - (lo:ℚ)) - 1) 1))
    ∧ -1 ≤ normalize_axis_value v lo hi ∧ normalize_axis_value v lo hi ≤ 1 := by
  have key : ∀ h : lo ≠ hi, ¬|(hi:ℚ) - (lo:ℚ)| < 1/1000000000 := by
    intro h
    have hne : hi - lo ≠ 0 := by omega
    have h1 : (1:ℤ) ≤ |hi - lo| := Int.one_le_abs hne
    have h2 : (1:ℚ) ≤ |(hi:ℚ) - (lo:ℚ)| := by
      have h1q : ((1:ℤ):ℚ) ≤ ((|hi - lo| : ℤ) : ℚ) := Int.cast_le.mpr h1
      push_cast at h1q
      exact h1q
    intro hlt
    linarith
  refine ⟨?_, ?_, ?_⟩
  · intro h
    subst h
    simp [normalize_axis_value]
  · intro h
    rw [normalize_axis_value, if_neg (key h)]
    have heq : ((v:ℚ) - (lo:ℚ)) / ((hi:ℚ) - (lo:ℚ)) * 2 - 1
        = 2 * ((v:ℚ) - (lo:ℚ)) / ((hi:ℚ) - (lo:ℚ)) - 1 := by
      ring
    rw [heq]
  · rw [normalize_axis_value]
    split_ifs with h
    · norm_num
    · constructor
      · exact le_max_left _ _
      · exact max_le (by norm_num) (min_le_right _ _)

/-- Witness for C4 at `v = 512`, `lo = 0`, `hi = 1023`. -/
theorem normalize_axis_value_spec_witness :
    (0:ℤ) ≠ 1023
    ∧ normalize_axis_value 512 0 1023
      = Max.max (-1) (Min.min (2 * ((512:ℚ) - (0:ℚ)) / ((1023:ℚ) - (0:ℚ)) - 1) 1) :=
  ⟨by decide, (normalize_axis_value_spec 512 0 1023).2.1 (by decide)⟩

/-! ## Binding resolver (`src/binding.rs`, lines 84–496) -/

/-- `DeviceState` (`binding.rs` lines 98–109): labeled axis/button/hat maps.
`HashMap` is modelled by an association list (see the file header). -/
structure DeviceState where
  axes : List (String × ℝ)
  buttons : List (String × Bool)
  hats : List (String × ℤ)

/-- `DeviceState::default()`: all three maps empty. -/
def DeviceState.empty : DeviceState := ⟨[], [], []⟩

instance : Inhabited DeviceState := ⟨DeviceState.empty⟩

/-- `DeviceState::get_axis` (`binding.rs` lines 113–116): `0.0` if missing. -/
def DeviceState.get_axis (st : DeviceState) (name : String) : ℝ :=
  (lookupM name st.axes).getD 0

/-- `DeviceState::get_button` (`binding.rs` lines 119–122): `false` if missing. -/
def DeviceState.get_button (st : DeviceState) (name : String) : Bool :=
  (lookupM name st.buttons).getD false

/-- `DeviceState::get_hat` (`binding.rs` lines 127–130): `-1` if missing. -/
def DeviceState.get_hat (st : DeviceState) (name : String) : ℤ :=
  (lookupM name st.hats).getD (-1)

/-- `ControlType` (`binding.rs` lines 138–144). -/
inductive ControlType where
  | axis
  | button
deriving DecidableEq

/-- `ControlPath` (`binding.rs` lines 149–155). -/
structure ControlPath where
  control_id : String
  control_type : ControlType

/-- `ControlPath2D` (`binding.rs` lines 289–295). -/
structure ControlPath2D where
  x : ControlPath
  y : ControlPath

/-- `BindingRule` (`binding.rs` lines 300–349). -/
inductive BindingRule where
  | axis1d (device_id : String) (control : ControlPath) (action : String)
      (xform : AxisTransform)
  | button (device_id : String) (control : ControlPath) (action : String)
      (axis_press_threshold : Option ℝ)
  | axis2d (device_id : String) (control : ControlPath2D) (action : String)
      (xform_x : AxisTransform) (xform_y : AxisTransform)
      (radial_deadzone : Bool) (radial_deadzone_size : ℝ)

/-- `BindingProfile` (`binding.rs` lines 356–369). -/
structure BindingProfile where
  version : ℕ
  name : String
  description : Option String
  bindings : List BindingRule

/-- `BindingOutput` (`binding.rs` lines 372–383). -/
structure BindingOutput where
  axis : List (String × ℝ)
  buttons : List (String × Bool)
  vec2 : List (String × (ℝ × ℝ))

/-- `BindingOutput::default()`: all maps empty. -/
def BindingOutput.empty : BindingOutput := ⟨[], [], []⟩

/-- Reading a control in an axis position (`binding.rs` lines 404–413 and
447–466): axes read `get_axis`, buttons read `get_button` as `1.0`/`0.0`. -/
noncomputable def readControl (st : DeviceState) (c : ControlPath) : ℝ :=
  match c.control_type with
  | ControlType.axis => st.get_axis c.control_id
  | ControlType.button => if st.get_button c.control_id then 1 else 0

/-- The `Button` rule's pressed computation (`binding.rs` lines 426–432):
button controls read directly; axis controls are thresholded with
`|threshold| min 0.99` (default `0.5`). -/
noncomputable def buttonPressedValue (st : DeviceState) (control : ControlPath)
    (axis_press_threshold : Option ℝ) : Bool :=
  match control.control_type with
  | ControlType.button => st.get_button control.control_id
  | ControlType.axis =>
    let thr := Min.min |axis_press_threshold.getD 0.5| 0.99
    if thr ≤ |st.get_axis control.control_id| then true else false

/-- The `Axis2d` rule's vector computation (`binding.rs` lines 468–486):
per-axis pipelines, then the optional radial deadzone. -/
noncomputable def axis2dValue (st : DeviceState) (control : ControlPath2D)
    (xform_x xform_y : AxisTransform) (radial_deadzone : Bool)
    (radial_deadzone_size : ℝ) : ℝ × ℝ :=
  let x := xform_x.apply (readControl st control.x)
  let y := xform_y.apply (readControl st control.y)
  if radial_deadzone then
    let dz := Min.min |radial_deadzone_size| 0.95
    let r := Real.sqrt (x * x + y * y)
    if r ≤ dz then (0, 0)
    else
      let t := (r - dz) / (1 - dz)
      if 0 < r then (x * (t / r), y * (t / r)) else (x, y)
  else (x, y)

/-- One iteration of the `resolve` loop (`binding.rs` lines 395–492): a rule
whose device is missing contributes nothing; otherwise it inserts its action
value into the proper output sub-map. -/
noncomputable def applyRule (devices : List (String × DeviceState))
    (out : BindingOutput) : BindingRule → BindingOutput
  | BindingRule.axis1d device_id control action xform =>
    match lookupM device_id devices with
    | none => out
    | some st =>
      { out with axis := insertM action (xform.apply (readControl st control)) out.axis }
  | BindingRule.button device_id control action axis_press_threshold =>
    match lookupM device_id devices with
    | none => out
    | some st =>
      { out with buttons :=
          insertM action (buttonPressedValue st control axis_press_threshold) out.buttons }
  | BindingRule.axis2d device_id control action xform_x xform_y radial size =>
    match lookupM device_id devices with
    | none => out
    | some st =>
      { out with vec2 :=
          insertM action (axis2dValue st control xform_x xform_y radial size) out.vec2 }

/-- `BindingProfile::resolve` (`binding.rs` lines 392–495): fold the rules
over an empty output. -/
noncomputable def BindingProfile.resolve (p : BindingProfile)
    (devices : List (String × DeviceState)) : BindingOutput :=
  p.bindings.foldl (applyRule devices) BindingOutput.empty

/-- C2: for an `Axis2d` rule with the radial deadzone enabled, once the
per-axis pipelines produce `(x, y)`: with `r = sqrt(x² + y²)` and
`dz = min(|radial_deadzone_size|, 0.95)`, if `r ≤ dz` the vector is `(0,0)`,
otherwise both components are scaled by `(r - dz) / ((1 - dz) * r)`; and the
rule stores exactly this pair under its action in the `vec2` sub-map. -/
theorem axis2d_radial_deadzone_spec (st : DeviceState) (control : ControlPath2D)
    (xform_x xform_y : AxisTransform) (size x y r dz : ℝ)
    (hx : x = xform_x.apply (readControl st control.x))
    (hy : y = xform_y.apply (readControl st control.y))
    (hr : r = Real.sqrt (x * x + y * y))
    (hdz : dz = Min.min |size| 0.95) :
    (r ≤ dz → axis2dValue st control xform_x xform_y true size = (0, 0))
    ∧ (dz < r → axis2dValue st control xform_x xform_y true size
        = (x * ((r - dz) / ((1 - dz) * r)), y * ((r - dz) / ((1 - dz) * r))))
    ∧ ∀ (devices : List (String × DeviceState)) (out : BindingOutput)
        (device_id action : String),
        lookupM device_id devices = some st →
        lookupM action (applyRule devices out
          (BindingRule.axis2d device_id control action xform_x xform_y true size)).vec2
          = some (axis2dValue st control xform_x xform_y true size) := by
  subst hx hy hr hdz
  refine ⟨?_, ?_, ?_⟩
  · intro h
    simp only [axis2dValue, if_true]
    rw [if_pos h]
  · intro h
    have hdz0 : (0:ℝ) ≤ Min.min |size| 0.95 :=
      le_min (abs_nonneg _) (by norm_num)
    have hrpos : 0 < Real.sqrt
        (xform_x.apply (readControl st control.x) * xform_x.apply (readControl st control.x)
          + xform_y.apply (readControl st control.y) * xform_y.apply (readControl st control.y)) :=
      lt_of_le_of_lt hdz0 h
    simp only [axis2dValue, if_true]
    rw [if_neg (not_le.mpr h), if_pos hrpos, div_div]
  · intro devices out device_id action hdev
    simp only [applyRule, hdev]
    exact lookupM_insertM_self _ _ _

/-- Witness for C2: a single-axis2d resolution on a neutral device state with
`radial_deadzone_size = 0.3` stores `(0, 0)`. -/
theorem axis2d_radial_deadzone_spec_witness :
    lookupM "move" (applyRule [("js0", DeviceState.empty)] BindingOutput.empty
        (BindingRule.axis2d "js0"
          ⟨⟨"X", ControlType.axis⟩, ⟨"Y", ControlType.axis⟩⟩ "move"
          identityTransform identityTransform true 0.3)).vec2
      = some (0, 0) := by
  have happly : identityTransform.apply
      (readControl DeviceState.empty ⟨"X", ControlType.axis⟩) = 0 := by
    have hread : readControl DeviceState.empty ⟨"X", ControlType.axis⟩ = 0 := by
      simp [readControl, DeviceState.get_axis, DeviceState.empty, lookupM]
    rw [hread]
    simp only [identityTransform, AxisTransform.apply, Bool.false_eq_true, if_false]
    norm_num [rsign]
  have happly2 : identityTransform.apply
      (readControl DeviceState.empty ⟨"Y", ControlType.axis⟩) = 0 := by
    have hread : readControl DeviceState.empty ⟨"Y", ControlType.axis⟩ = 0 := by
      simp [readControl, DeviceState.get_axis, DeviceState.empty, lookupM]
    rw [hread]
    simp only [identityTransform, AxisTransform.apply, Bool.false_eq_true, if_false]
    norm_num [rsign]
  have h := axis2d_radial_deadzone_spec DeviceState.empty
    ⟨⟨"X", ControlType.axis⟩, ⟨"Y", ControlType.axis⟩⟩
    identityTransform identityTransform 0.3 0 0
    (Real.sqrt (0 * 0 + 0 * 0)) (Min.min |(0.3:ℝ)| 0.95)
    happly.symm happly2.symm rfl rfl
  have hzero : axis2dValue DeviceState.empty
      ⟨⟨"X", ControlType.axis⟩, ⟨"Y", ControlType.axis⟩⟩
      identityTransform identityTransform true 0.3 = (0, 0) := by
    apply h.1
    have hs : Real.sqrt (0 * 0 + 0 * 0) = 0 := by
      norm_num
    rw [hs]
    exact le_min (abs_nonneg _) (by norm_num)
  have hstore := h.2.2 [("js0", DeviceState.empty)] BindingOutput.empty "js0" "move"
    (by simp [lookupM])
  rw [hstore, hzero]

/-! ### Last-writer-wins in `resolve`

`resolve` inserts each rule's action value as it walks `bindings`; an
insertion for the same action in the same sub-map silently shadows the
earlier one.  `ruleAxisWrite devices a r` is `some v` exactly when rule `r`
writes value `v` under action `a` into the `axis` sub-map (that is, `r` is
`Axis1d` with action `a` and its device exists); similarly for the other two
sub-maps. -/

/-- The `axis`-sub-map write a rule performs for action `a`, if any. -/
noncomputable def ruleAxisWrite (devices : List (String × DeviceState))
    (a : String) : BindingRule → Option ℝ
  | BindingRule.axis1d device_id control action xform =>
    match lookupM device_id devices with
    | none => none
    | some st =>
      if action = a then some (xform.apply (readControl st control)) else none
  | _ => none

/-- The `buttons`-sub-map write a rule performs for action `a`, if any. -/
noncomputable def ruleButtonWrite (devices : List (String × DeviceState))
    (a : String) : BindingRule → Option Bool
  | BindingRule.button device_id control action thr =>
    match lookupM device_id devices with
    | none => none
    | some st =>
      if action = a then some (buttonPressedValue st control thr) else none
  | _ => none

/-- The `vec2`-sub-map write a rule performs for action `a`, if any. -/
noncomputable def ruleVec2Write (devices : List (String × DeviceState))
    (a : String) : BindingRule → Option (ℝ × ℝ)
  | BindingRule.axis2d device_id control action xform_x xform_y radial size =>
    match lookupM device_id devices with
    | none => none
    | some st =>
      if action = a then
        some (axis2dValue st control xform_x xform_y radial size)
      else none
  | _ => none

theorem applyRule_axis_write_some (devices : List (String × DeviceState))
    (out : BindingOutput) (r : BindingRule) (a : String) (v : ℝ)
    (h : ruleAxisWrite devices a r = some v) :
    lookupM a (applyRule devices out r).axis = some v := by
  cases r with
  | axis1d device_id control action xform =>
    rw [ruleAxisWrite] at h
    cases hdev : lookupM device_id devices with
    | none => rw [hdev] at h; simp at h
    | some st =>
      simp only [hdev] at h
      by_cases ha : action = a
      · rw [if_pos ha] at h
        injection h with h
        simp only [applyRule, hdev]
        subst ha
        rw [← h]
        exact lookupM_insertM_self _ _ _
      · rw [if_neg ha] at h; exact absurd h (by simp)
  | button device_id control action thr => simp [ruleAxisWrite] at h
  | axis2d device_id control action xx xy rd sz => simp [ruleAxisWrite] at h

theorem applyRule_axis_write_none (devices : List (String × DeviceState))
    (out : BindingOutput) (r : BindingRule) (a : String)
    (h : ruleAxisWrite devices a r = none) :
    lookupM a (applyRule devices out r).axis = lookupM a out.axis := by
  cases r with
  | axis1d device_id control action xform =>
    rw [ruleAxisWrite] at h
    cases hdev : lookupM device_id devices with
    | none => simp [applyRule, hdev]
    | some st =>
      simp only [hdev] at h
      by_cases ha : action = a
      · rw [if_pos ha] at h; exact absurd h (by simp)
      · simp only [applyRule, hdev]
        exact lookupM_insertM_ne _ _ ha
  | button device_id control action thr =>
    cases hdev : lookupM device_id devices with
    | none => simp [applyRule, hdev]
    | some st => simp [applyRule, hdev]
  | axis2d device_id control action xx xy rd sz =>
    cases hdev : lookupM device_id devices with
    | none => simp [applyRule, hdev]
    | some st => simp [applyRule, hdev]

theorem applyRule_button_write_some (devices : List (String × DeviceState))
    (out : BindingOutput) (r : BindingRule) (a : String) (v : Bool)
    (h : ruleButtonWrite devices a r = some v) :
    lookupM a (applyRule devices out r).buttons = some v := by
  cases r with
  | button device_id control action thr =>
    rw [ruleButtonWrite] at h
    cases hdev : lookupM device_id devices with
    | none => rw [hdev] at h; simp at h
    | some st =>
      simp only [hdev] at h
      by_cases ha : action = a
      · rw [if_pos ha] at h
        injection h with h
        simp only [applyRule, hdev]
        subst ha
        rw [← h]
        exact lookupM_insertM_self _ _ _
      · rw [if_neg ha] at h; exact absurd h (by simp)
  | axis1d device_id control action xform => simp [ruleButtonWrite] at h
  | axis2d device_id control action xx xy rd sz => simp [ruleButtonWrite] at h

theorem applyRule_button_write_none (devices : List (String × DeviceState))
    (out : BindingOutput) (r : BindingRule) (a : String)
    (h : ruleButtonWrite devices a r = none) :
    lookupM a (applyRule devices out r).buttons = lookupM a out.buttons := by
  cases r with
  | button device_id control action thr =>
    rw [ruleButtonWrite] at h
    cases hdev : lookupM device_id devices with
    | none => simp [applyRule, hdev]
    | some st =>
      simp only [hdev] at h
      by_cases ha : action = a
      · rw [if_pos ha] at h; exact absurd h (by simp)
      · simp only [applyRule, hdev]
        exact lookupM_insertM_ne _ _ ha
  | axis1d device_id control action xform =>
    cases hdev : lookupM device_id devices with
    | none => simp [applyRule, hdev]
    | some st => simp [applyRule, hdev]
  | axis2d device_id control action xx xy rd sz =>
    cases hdev : lookupM device_id devices with
    | none => simp [applyRule, hdev]
    | some st => simp [applyRule, hdev]

theorem applyRule_vec2_write_some (devices : List (String × DeviceState))
    (out : BindingOutput) (r : BindingRule) (a : String) (v : ℝ × ℝ)
    (h : ruleVec2Write devices a r = some v) :
    lookupM a (applyRule devices out r).vec2 = some v := by
  cases r with
  | axis2d device_id control action xx xy rd sz =>
    rw [ruleVec2Write] at h
    cases hdev : lookupM device_id devices with
    | none => rw [hdev] at h; simp at h
    | some st =>
      simp only [hdev] at h
      by_cases ha : action = a
      · rw [if_pos ha] at h
        injection h with h
        simp only [applyRule, hdev]
        subst ha
        rw [← h]
        exact lookupM_insertM_self _ _ _
      · rw [if_neg ha] at h; exact absurd h (by simp)
  | axis1d device_id control action xform => simp [ruleVec2Write] at h
  | button device_id control action thr => simp [ruleVec2Write] at h

theorem applyRule_vec2_write_none (devices : List (String × DeviceState))
    (out : BindingOutput) (r : BindingRule) (a : String)
    (h : ruleVec2Write devices a r = none) :
    lookupM a (applyRule devices out r).vec2 = lookupM a out.vec2 := by
  cases r with
  | axis2d device_id control action xx xy rd sz =>
    rw [ruleVec2Write] at h
    cases hdev : lookupM device_id devices with
    | none => simp [applyRule, hdev]
    | some st =>
      simp only [hdev] at h
      by_cases ha : action = a
      · rw [if_pos ha] at h; exact absurd h (by simp)
      · simp only [applyRule, hdev]
        exact lookupM_insertM_ne _ _ ha
  | axis1d device_id control action xform =>
    cases hdev : lookupM device_id devices with
    | none => simp [applyRule, hdev]
    | some st => simp [applyRule, hdev]
  | button device_id control action thr =>
    cases hdev : lookupM device_id devices with
    | none => simp [applyRule, hdev]
    | some st => simp [applyRule, hdev]

theorem foldl_axis_nowrite (devices : List (String × DeviceState)) (a : String) :
    ∀ (l : List BindingRule) (out : BindingOutput),
    (∀ r ∈ l, ruleAxisWrite devices a r = none) →
    lookupM a (l.foldl (applyRule devices) out).axis = lookupM a out.axis := by
  intro l
  induction l with
  | nil => intro out _; rfl
  | cons r l ih =>
    intro out h
    rw [List.foldl_cons,
      ih _ (fun r' hr' => h r' (List.mem_cons_of_mem _ hr')),
      applyRule_axis_write_none devices out r a (h r (List.mem_cons_self _ _))]

theorem foldl_button_nowrite (devices : List (String × DeviceState)) (a : String) :
    ∀ (l : List BindingRule) (out : BindingOutput),
    (∀ r ∈ l, ruleButtonWrite devices a r = none) →
    lookupM a (l.foldl (applyRule devices) out).buttons = lookupM a out.buttons := by
  intro l
  induction l with
  | nil => intro out _; rfl
  | cons r l ih =>
    intro out h
    rw [List.foldl_cons,
      ih _ (fun r' hr' => h r' (List.mem_cons_of_mem _ hr')),
      applyRule_button_write_none devices out r a (h r (List.mem_cons_self _ _))]

theorem foldl_vec2_nowrite (devices : List (String × DeviceState)) (a : String) :
    ∀ (l : List BindingRule) (out : BindingOutput),
    (∀ r ∈ l, ruleVec2Write devices a r = none) →
    lookupM a (l.foldl (applyRule devices) out).vec2 = lookupM a out.vec2 := by
  intro l
  induction l with
  | nil => intro out _; rfl
  | cons r l ih =>
    intro out h
    rw [List.foldl_cons,
      ih _ (fun r' hr' => h r' (List.mem_cons_of_mem _ hr')),
      applyRule_vec2_write_none devices out r a (h r (List.mem_cons_self _ _))]

/-- C10: when two rules write the same action into the same output sub-map
and both rules' devices exist, `resolve` returns the value of the rule
occurring last in the `bindings` sequence — later rules silently overwrite
earlier ones, with no error and no merge.  Stated for each of the three
sub-maps: `r2` is the last rule writing action `a` (nothing after it writes
`a` in that sub-map), `r1` an arbitrary earlier writer of `a`. -/
theorem resolve_last_rule_wins (devices : List (String × DeviceState))
    (profile : BindingProfile) :
    (∀ (pre mid post : List BindingRule) (r1 r2 : BindingRule) (a : String)
        (v1 v2 : ℝ),
      profile.bindings = pre ++ r1 :: (mid ++ r2 :: post) →
      ruleAxisWrite devices a r1 = some v1 →
      ruleAxisWrite devices a r2 = some v2 →
      (∀ r ∈ post, ruleAxisWrite devices a r = none) →
      lookupM a (profile.resolve devices).axis = some v2)
    ∧ (∀ (pre mid post : List BindingRule) (r1 r2 : BindingRule) (a : String)
        (v1 v2 : Bool),
      profile.bindings = pre ++ r1 :: (mid ++ r2 :: post) →
      ruleButtonWrite devices a r1 = some v1 →
      ruleButtonWrite devices a r2 = some v2 →
      (∀ r ∈ post, ruleButtonWrite devices a r = none) →
      lookupM a (profile.resolve devices).buttons = some v2)
    ∧ (∀ (pre mid post : List BindingRule) (r1 r2 : BindingRule) (a : String)
        (v1 v2 : ℝ × ℝ),
      profile.bindings = pre ++ r1 :: (mid ++ r2 :: post) →
      ruleVec2Write devices a r1 = some v1 →
      ruleVec2Write devices a r2 = some v2 →
      (∀ r ∈ post, ruleVec2Write devices a r = none) →
      lookupM a (profile.resolve devices).vec2 = some v2) := by
  have hsplit : ∀ (pre mid post : List BindingRule) (r1 r2 : BindingRule),
      pre ++ r1 :: (mid ++ r2 :: post) = (pre ++ r1 :: mid) ++ r2 :: post := by
    intro pre mid post r1 r2
    simp
  refine ⟨?_, ?_, ?_⟩
  · intro pre mid post r1 r2 a v1 v2 hb h1 h2 hpost
    rw [BindingProfile.resolve, hb, hsplit, List.foldl_append, List.foldl_cons,
      foldl_axis_nowrite devices a post _ hpost,
      applyRule_axis_write_some devices _ r2 a v2 h2]
  · intro pre mid post r1 r2 a v1 v2 hb h1 h2 hpost
    rw [BindingProfile.resolve, hb, hsplit, List.foldl_append, List.foldl_cons,
      foldl_button_nowrite devices a post _ hpost,
      applyRule_button_write_some devices _ r2 a v2 h2]
  · intro pre mid post r1 r2 a v1 v2 hb h1 h2 hpost
    rw [BindingProfile.resolve, hb, hsplit, List.foldl_append, List.foldl_cons,
      foldl_vec2_nowrite devices a post _ hpost,
      applyRule_vec2_write_some devices _ r2 a v2 h2]

/-- Witness for C10: two `Button` rules both target action `"fire"`; the
first reads pressed button `"T"` (`true`), the second reads absent button
`"U"` (`false`); the resolved output holds the second rule's value. -/
theorem resolve_last_rule_wins_witness :
    lookupM "fire" ((BindingProfile.mk 1 "p" none
        [BindingRule.button "d" ⟨"T", ControlType.button⟩ "fire" none,
         BindingRule.button "d" ⟨"U", ControlType.button⟩ "fire" none]).resolve
      [("d", DeviceState.mk [] [("T", true)] [])]).buttons = some false := by
  have h := (resolve_last_rule_wins [("d", DeviceState.mk [] [("T", true)] [])]
      (BindingProfile.mk 1 "p" none
        [BindingRule.button "d" ⟨"T", ControlType.button⟩ "fire" none,
         BindingRule.button "d" ⟨"U", ControlType.button⟩ "fire" none])).2.1
      [] [] []
      (BindingRule.button "d" ⟨"T", ControlType.button⟩ "fire" none)
      (BindingRule.button "d" ⟨"U", ControlType.button⟩ "fire" none)
      "fire" true false rfl ?_ ?_ (by intro r hr; exact absurd hr (by simp))
  · exact h
  · rfl
  · rfl

/-! ## Manager (`src/manager.rs`)

Device handles and OS polling are external; a tick's per-device poll results
enter the model as an explicit list `polls : List (String × List InputKind)`
in device-enumeration order, each device's events in parser-emission order,
exactly as `Device::poll` hands them to the manager loop. -/

/-- `ChannelKind` (`src/event.rs`). -/
inductive ChannelKind where
  | axis
  | button
  | hat
deriving DecidableEq

/-- `ChannelDesc` (`src/event.rs`): one input channel of a device. -/
structure ChannelDesc where
  kind : ChannelKind
  idx : ℕ
  name : Option String
  logical_min : ℤ
  logical_max : ℤ
  usage_page : Option ℕ
  usage : Option ℕ

/-- `InputKind` (`src/event.rs`): device-local deltas. -/
inductive InputKind where
  | axisMoved (axis : ℕ) (value : ℝ)
  | buttonPressed (button : ℕ)
  | buttonReleased (button : ℕ)
  | hatChanged (hat : ℕ) (value : ℤ)

/-- `LabelMaps` (`manager.rs` lines 59–64): per-kind index-to-label maps. -/
structure LabelMaps where
  axes : List (ℕ × String)
  buttons : List (ℕ × String)
  hats : List (ℕ × String)

/-- `LabelMaps::default()`. -/
def LabelMaps.empty : LabelMaps := ⟨[], [], []⟩

/-- `default_name` (`manager.rs` lines 66–72): `axisN` / `btnN` / `hatN`. -/
def default_name (kind : ChannelKind) (idx : ℕ) : String :=
  match kind with
  | ChannelKind.axis => "axis" ++ toString idx
  | ChannelKind.button => "btn" ++ toString idx
  | ChannelKind.hat => "hat" ++ toString idx

/-- `build_labels` (`manager.rs` lines 74–94). -/
def build_labels (descs : List ChannelDesc) : LabelMaps :=
  descs.foldl (fun lm d =>
    let name := d.name.getD (default_name d.kind d.idx)
    match d.kind with
    | ChannelKind.axis => { lm with axes := insertM d.idx name lm.axes }
    | ChannelKind.button => { lm with buttons := insertM d.idx name lm.buttons }
    | ChannelKind.hat => { lm with hats := insertM d.idx name lm.hats })
    LabelMaps.empty

/-- `ManagedInfo` (`manager.rs` lines 100–104); the metadata snapshot is
omitted — it never feeds back into state. -/
structure ManagedInfo where
  id : String
  name : String
deriving DecidableEq

/-- The manager's owned state (`manager.rs` lines 122–133).  The `devices`
vector of live handles is external; its per-tick poll output is passed to
`poll_events` explicitly. -/
structure ManagerState where
  labels : List (String × LabelMaps)
  states : List (String × DeviceState)
  infos : List ManagedInfo
  descs : List (String × List ChannelDesc)
  injected : List (String × InputKind)

/-- The labeled write of `Manager::apply_event` (`manager.rs` lines 323–356):
look the index up in the device's label maps, fall back to `default_name`,
and insert into the matching sub-map. -/
noncomputable def applyEventLabel (lbl : LabelMaps) (st : DeviceState) :
    InputKind → DeviceState
  | InputKind.axisMoved axis value =>
    let k := (lookupM axis lbl.axes).getD (default_name ChannelKind.axis axis)
    { st with axes := insertM k value st.axes }
  | InputKind.buttonPressed button =>
    let k := (lookupM button lbl.buttons).getD (default_name ChannelKind.button button)
    { st with buttons := insertM k true st.buttons }
  | InputKind.buttonReleased button =>
    let k := (lookupM button lbl.buttons).getD (default_name ChannelKind.button button)
    { st with buttons := insertM k false st.buttons }
  | InputKind.hatChanged hat value =>
    let k := (lookupM hat lbl.hats).getD (default_name ChannelKind.hat hat)
    { st with hats := insertM k value st.hats }

/-- `Manager::apply_event` (`manager.rs` lines 318–357): first
`states.entry(id).or_default()`, then bail out if the device has no label
maps, otherwise write the labeled key. -/
noncomputable def apply_event (labels : List (String × LabelMaps))
    (states : List (String × DeviceState)) (id : String) (ev : InputKind) :
    List (String × DeviceState) :=
  let st := (lookupM id states).getD DeviceState.empty
  match lookupM id labels with
  | none => if (lookupM id states).isSome then states else insertM id st states
  | some lbl => insertM id (applyEventLabel lbl st ev) states

/-- The inner loop of `poll_events` phase 1 (`manager.rs` lines 231–234):
apply each of one device's events and push `(id, ev)`. -/
noncomputable def evLoop (labels : List (String × LabelMaps)) (id : String) :
    List InputKind
    → List (String × DeviceState) × List (String × InputKind)
    → List (String × DeviceState) × List (String × InputKind)
  | [], acc => acc
  | ev :: evs, (states, out) =>
    evLoop labels id evs (apply_event labels states id ev, out ++ [(id, ev)])

/-- The outer loop of `poll_events` phase 1 (`manager.rs` lines 226–235):
devices in enumeration order. -/
noncomputable def devLoop (labels : List (String × LabelMaps)) :
    List (String × List InputKind)
    → List (String × DeviceState) × List (String × InputKind)
    → List (String × DeviceState) × List (String × InputKind)
  | [], acc => acc
  | (id, evs) :: rest, acc => devLoop labels rest (evLoop labels id evs acc)

/-- `poll_events` phase 2 (`manager.rs` lines 238–245): drain the injected
queue in insertion order. -/
noncomputable def injLoop (labels : List (String × LabelMaps)) :
    List (String × InputKind)
    → List (String × DeviceState) × List (String × InputKind)
    → List (String × DeviceState) × List (String × InputKind)
  | [], acc => acc
  | (id, ev) :: rest, (states, out) =>
    injLoop labels rest (apply_event labels states id ev, out ++ [(id, ev)])

/-- `Manager::poll_events` (`manager.rs` lines 223–247): poll every device,
apply and collect its events, then drain the injected queue (taken with
`mem::take`, leaving it empty). -/
noncomputable def poll_events (m : ManagerState)
    (polls : List (String × List InputKind)) :
    ManagerState × List (String × InputKind) :=
  let acc1 := devLoop m.labels polls (m.states, [])
  let acc2 := injLoop m.labels m.injected acc1
  ({ m with states := acc2.1, injected := [] }, acc2.2)

theorem evLoop_snd (labels : List (String × LabelMaps)) (id : String) :
    ∀ (evs : List InputKind) (acc : List (String × DeviceState) × List (String × InputKind)),
    (evLoop labels id evs acc).2 = acc.2 ++ evs.map (fun ev => (id, ev)) := by
  intro evs
  induction evs with
  | nil => intro acc; simp [evLoop]
  | cons ev evs ih =>
    intro acc
    obtain ⟨s, o⟩ := acc
    rw [evLoop, ih]
    simp

theorem devLoop_snd (labels : List (String × LabelMaps)) :
    ∀ (polls : List (String × List InputKind))
      (acc : List (String × DeviceState) × List (String × InputKind)),
    (devLoop labels polls acc).2
      = acc.2 ++ (polls.map (fun p => p.2.map (fun ev => (p.1, ev)))).flatten := by
  intro polls
  induction polls with
  | nil => intro acc; simp [devLoop]
  | cons p rest ih =>
    intro acc
    obtain ⟨id, evs⟩ := p
    rw [devLoop, ih, evLoop_snd]
    simp

theorem injLoop_snd (labels : List (String × LabelMaps)) :
    ∀ (inj : List (String × InputKind))
      (acc : List (String × DeviceState) × List (String × InputKind)),
    (injLoop labels inj acc).2 = acc.2 ++ inj := by
  intro inj
  induction inj with
  | nil => intro acc; simp [injLoop]
  | cons pe rest ih =>
    intro acc
    obtain ⟨s, o⟩ := acc
    obtain ⟨id, ev⟩ := pe
    rw [injLoop, ih]
    simp

/-- C5: a `poll_events` call returns the device events first, grouped per
device in device-enumeration order with each device's events in
parser-emission order, followed by the injected events in insertion order;
and afterwards the injected queue is empty. -/
theorem poll_events_order_and_drain (m : ManagerState)
    (polls : List (String × List InputKind)) :
    (poll_events m polls).2
      = (polls.map (fun p => p.2.map (fun ev => (p.1, ev)))).flatten ++ m.injected
    ∧ (poll_events m polls).1.injected = [] := by
  constructor
  · show (injLoop m.labels m.injected (devLoop m.labels polls (m.states, []))).2 = _
    rw [injLoop_snd, devLoop_snd]
    simp
  · rfl

/-- C7 counterexample: with no label maps for `"d"` and an empty state map,
applying an event is ignored for state purposes but the state map is *not*
unchanged — `apply_event` first runs `states.entry(id).or_default()`, which
inserts a fresh empty `DeviceState` under `"d"`. -/
theorem apply_event_missing_labels_counterexample :
    lookupM "d" (apply_event ([] : List (String × LabelMaps)) [] "d"
        (InputKind.buttonPressed 0))
      ≠ lookupM "d" ([] : List (String × DeviceState)) := by
  simp [apply_event, lookupM, insertM]

/-- C7 (amended): when the device's label maps are missing, no channel value
is written and every other id's state is unchanged, but the target id's
entry is ensured (its prior state if present, else a fresh default — so the
map can gain an empty entry); when the label maps exist, exactly the labeled
key of the proper sub-map of that device's state is written and nothing else
changes. -/
theorem apply_event_spec (labels : List (String × LabelMaps))
    (states : List (String × DeviceState)) (id : String) (ev : InputKind) :
    (lookupM id labels = none →
      (∀ id2, id2 ≠ id →
        lookupM id2 (apply_event labels states id ev) = lookupM id2 states)
      ∧ lookupM id (apply_event labels states id ev)
          = some ((lookupM id states).getD DeviceState.empty))
    ∧ (∀ lbl, lookupM id labels = some lbl →
      (∀ id2, id2 ≠ id →
        lookupM id2 (apply_event labels states id ev) = lookupM id2 states)
      ∧ lookupM id (apply_event labels states id ev)
          = some (applyEventLabel lbl ((lookupM id states).getD DeviceState.empty) ev)
      ∧ (∀ (st : DeviceState), match ev with
        | InputKind.axisMoved a v =>
          (applyEventLabel lbl st ev).buttons = st.buttons
          ∧ (applyEventLabel lbl st ev).hats = st.hats
          ∧ ∀ k, lookupM k (applyEventLabel lbl st ev).axes
              = if ((lookupM a lbl.axes).getD (default_name ChannelKind.axis a)) = k
                then some v else lookupM k st.axes
        | InputKind.buttonPressed b =>
          (applyEventLabel lbl st ev).axes = st.axes
          ∧ (applyEventLabel lbl st ev).hats = st.hats
          ∧ ∀ k, lookupM k (applyEventLabel lbl st ev).buttons
              = if ((lookupM b lbl.buttons).getD (default_name ChannelKind.button b)) = k
                then some true else lookupM k st.buttons
        | InputKind.buttonReleased b =>
          (applyEventLabel lbl st ev).axes = st.axes
          ∧ (applyEventLabel lbl st ev).hats = st.hats
          ∧ ∀ k, lookupM k (applyEventLabel lbl st ev).buttons
              = if ((lookupM b lbl.buttons).getD (default_name ChannelKind.button b)) = k
                then some false else lookupM k st.buttons
        | InputKind.hatChanged hidx v =>
          (applyEventLabel lbl st ev).axes = st.axes
          ∧ (applyEventLabel lbl st ev).buttons = st.buttons
          ∧ ∀ k, lookupM k (applyEventLabel lbl st ev).hats
              = if ((lookupM hidx lbl.hats).getD (default_name ChannelKind.hat hidx)) = k
                then some v else lookupM k st.hats)) := by
  constructor
  · intro hnone
    constructor
    · intro id2 hne
      rw [apply_event]
      simp only [hnone]
      split
      · rfl
      · exact lookupM_insertM_ne _ _ (fun h => hne h.symm)
    · rw [apply_event]
      simp only [hnone]
      cases hst : lookupM id states with
      | none => simp [hst, lookupM_insertM_self]
      | some st => simp [hst]
  · intro lbl hsome
    refine ⟨?_, ?_, ?_⟩
    · intro id2 hne
      rw [apply_event]
      simp only [hsome]
      exact lookupM_insertM_ne _ _ (fun h => hne h.symm)
    · rw [apply_event]
      simp only [hsome]
      exact lookupM_insertM_self _ _ _
    · intro st
      cases ev with
      | axisMoved a v =>
        refine ⟨rfl, rfl, ?_⟩
        intro k
        rw [applyEventLabel]
        by_cases hk : ((lookupM a lbl.axes).getD (default_name ChannelKind.axis a)) = k
        · rw [if_pos hk]
          subst hk
          exact lookupM_insertM_self _ _ _
        · rw [if_neg hk]
          exact lookupM_insertM_ne _ _ hk
      | buttonPressed b =>
        refine ⟨rfl, rfl, ?_⟩
        intro k
        rw [applyEventLabel]
        by_cases hk : ((lookupM b lbl.buttons).getD (default_name ChannelKind.button b)) = k
        · rw [if_pos hk]
          subst hk
          exact lookupM_insertM_self _ _ _
        · rw [if_neg hk]
          exact lookupM_insertM_ne _ _ hk
      | buttonReleased b =>
        refine ⟨rfl, rfl, ?_⟩
        intro k
        rw [applyEventLabel]
        by_cases hk : ((lookupM b lbl.buttons).getD (default_name ChannelKind.button b)) = k
        · rw [if_pos hk]
          subst hk
          exact lookupM_insertM_self _ _ _
        · rw [if_neg hk]
          exact lookupM_insertM_ne _ _ hk
      | hatChanged hidx v =>
        refine ⟨rfl, rfl, ?_⟩
        intro k
        rw [applyEventLabel]
        by_cases hk : ((lookupM hidx lbl.hats).getD (default_name ChannelKind.hat hidx)) = k
        · rw [if_pos hk]
          subst hk
          exact lookupM_insertM_self _ _ _
        · rw [if_neg hk]
          exact lookupM_insertM_ne _ _ hk

/-- Witness for C7 (amended) at a concrete input: a missing-labels apply on
an empty state map yields an ensured empty entry. -/
theorem apply_event_spec_witness :
    lookupM "d" (apply_event ([] : List (String × LabelMaps)) [] "d"
        (InputKind.buttonPressed 0))
      = some ((lookupM "d" ([] : List (String × DeviceState))).getD DeviceState.empty) :=
  ((apply_event_spec [] [] "d" (InputKind.buttonPressed 0)).1 rfl).2

/-! ### Rescan (`manager.rs` lines 359–405 and `seed_neutral` lines 742–773) -/

/-- One step of `seed_neutral`'s loop: look up the channel's label (with the
`default_name` fallback) and `or_insert` the neutral value for its kind
(axes `0.0`, buttons `false`, hats `-1`). -/
noncomputable def seedOne (labels : LabelMaps) (st : DeviceState)
    (d : ChannelDesc) : DeviceState :=
  match d.kind with
  | ChannelKind.axis =>
    let label := (lookupM d.idx labels.axes).getD (default_name ChannelKind.axis d.idx)
    { st with axes := orInsertM label 0 st.axes }
  | ChannelKind.button =>
    let label := (lookupM d.idx labels.buttons).getD (default_name ChannelKind.button d.idx)
    { st with buttons := orInsertM label false st.buttons }
  | ChannelKind.hat =>
    let label := (lookupM d.idx labels.hats).getD (default_name ChannelKind.hat d.idx)
    { st with hats := orInsertM label (-1) st.hats }

/-- `seed_neutral` (`manager.rs` lines 742–773): seed a neutral value for
every described channel, never overwriting an existing key. -/
noncomputable def seed_neutral (st : DeviceState) (labels : LabelMaps)
    (descs : List ChannelDesc) : DeviceState :=
  descs.foldl (seedOne labels) st

/-- The result of one platform probe for one device: its stable id, display
name and channel descriptors (`Device::id`/`name`/`describe`). -/
structure Probed where
  id : String
  name : String
  descs : List ChannelDesc

/-- `RescanReport` (`manager.rs` lines 735–739). -/
structure RescanReport where
  added : List ManagedInfo
  removed : List String

/-- Accumulator of the rescan loop (the four `new_*` collections built in
`manager.rs` lines 368–387). -/
structure RescanAcc where
  labels : List (String × LabelMaps)
  states : List (String × DeviceState)
  infos : List ManagedInfo
  descs : List (String × List ChannelDesc)

/-- The per-device body of the rescan loop (`manager.rs` lines 373–387):
build labels, carry the old state forward (or start from default), re-seed
neutral, and record the device. -/
noncomputable def rescanLoop (old_states : List (String × DeviceState)) :
    List Probed → RescanAcc → RescanAcc
  | [], acc => acc
  | d :: rest, acc =>
    let lm := build_labels d.descs
    let st := seed_neutral ((lookupM d.id old_states).getD DeviceState.empty) lm d.descs
    rescanLoop old_states rest
      { labels := insertM d.id lm acc.labels,
        states := insertM d.id st acc.states,
        infos := acc.infos ++ [ManagedInfo.mk d.id d.name],
        descs := insertM d.id d.descs acc.descs }

/-- `Manager::rescan` (`manager.rs` lines 363–405), with the probe result
passed in explicitly.  `removed` and `added` are the two set differences of
old and new ids (the `HashSet`s are modelled by lists; only membership is
observable). -/
noncomputable def rescan (m : ManagerState) (new_devs : List Probed) :
    ManagerState × RescanReport :=
  let old_ids := m.infos.map ManagedInfo.id
  let acc := rescanLoop m.states new_devs (RescanAcc.mk [] [] [] [])
  let new_ids := acc.infos.map ManagedInfo.id
  let removed := old_ids.filter (fun i => decide (i ∉ new_ids))
  let added := acc.infos.filter (fun i => decide (i.id ∉ old_ids))
  ({ labels := acc.labels, states := acc.states, infos := acc.infos,
     descs := acc.descs, injected := m.injected },
   RescanReport.mk added removed)

theorem lookupM_orInsertM_cases {κ V : Type} [DecidableEq κ] (k k' : κ) (v : V)
    (l : List (κ × V)) :
    lookupM k' (orInsertM k v l) = lookupM k' l
    ∨ (lookupM k' l = none ∧ lookupM k' (orInsertM k v l) = some v) := by
  unfold orInsertM
  split
  · exact Or.inl rfl
  next habs =>
    by_cases hk : k = k'
    · subst hk
      right
      refine ⟨?_, by simp [lookupM]⟩
      cases hl : lookupM k l with
      | none => rfl
      | some w => rw [hl] at habs; simp at habs
    · left
      simp [lookupM, hk]

theorem seed_neutral_axes_lookup (labels : LabelMaps) :
    ∀ (descs : List ChannelDesc) (st : DeviceState) (k : String),
    lookupM k (seed_neutral st labels descs).axes = lookupM k st.axes
    ∨ (lookupM k st.axes = none
       ∧ lookupM k (seed_neutral st labels descs).axes = some 0) := by
  intro descs
  induction descs with
  | nil => intro st k; exact Or.inl rfl
  | cons d rest ih =>
    intro st k
    have hstep : lookupM k (seedOne labels st d).axes = lookupM k st.axes
        ∨ (lookupM k st.axes = none
           ∧ lookupM k (seedOne labels st d).axes = some 0) := by
      rw [seedOne]
      cases d.kind with
      | axis => exact lookupM_orInsertM_cases _ _ _ _
      | button => exact Or.inl rfl
      | hat => exact Or.inl rfl
    have hrest := ih (seedOne labels st d) k
    rw [seed_neutral, List.foldl_cons] at *
    rcases hrest with h | ⟨hnone, hsome⟩
    · rcases hstep with h2 | ⟨h2none, h2some⟩
      · exact Or.inl (h.trans h2)
      · exact Or.inr ⟨h2none, h.trans h2some⟩
    · rcases hstep with h2 | ⟨h2none, h2some⟩
      · exact Or.inr ⟨h2 ▸ hnone, hsome⟩
      · exact Or.inr ⟨h2none, hsome⟩

theorem seed_neutral_buttons_lookup (labels : LabelMaps) :
    ∀ (descs : List ChannelDesc) (st : DeviceState) (k : String),
    lookupM k (seed_neutral st labels descs).buttons = lookupM k st.buttons
    ∨ (lookupM k st.buttons = none
       ∧ lookupM k (seed_neutral st labels descs).buttons = some false) := by
  intro descs
  induction descs with
  | nil => intro st k; exact Or.inl rfl
  | cons d rest ih =>
    intro st k
    have hstep : lookupM k (seedOne labels st d).buttons = lookupM k st.buttons
        ∨ (lookupM k st.buttons = none
           ∧ lookupM k (seedOne labels st d).buttons = some false) := by
      rw [seedOne]
      cases d.kind with
      | axis => exact Or.inl rfl
      | button => exact lookupM_orInsertM_cases _ _ _ _
      | hat => exact Or.inl rfl
    have hrest := ih (seedOne labels st d) k
    rw [seed_neutral, List.foldl_cons] at *
    rcases hrest with h | ⟨hnone, hsome⟩
    · rcases hstep with h2 | ⟨h2none, h2some⟩
      · exact Or.inl (h.trans h2)
      · exact Or.inr ⟨h2none, h.trans h2some⟩
    · rcases hstep with h2 | ⟨h2none, h2some⟩
      · exact Or.inr ⟨h2 ▸ hnone, hsome⟩
      · exact Or.inr ⟨h2none, hsome⟩

theorem seed_neutral_hats_lookup (labels : LabelMaps) :
    ∀ (descs : List ChannelDesc) (st : DeviceState) (k : String),
    lookupM k (seed_neutral st labels descs).hats = lookupM k st.hats
    ∨ (lookupM k st.hats = none
       ∧ lookupM k (seed_neutral st labels descs).hats = some (-1)) := by
  intro descs
  induction descs with
  | nil => intro st k; exact Or.inl rfl
  | cons d rest ih =>
    intro st k
    have hstep : lookupM k (seedOne labels st d).hats = lookupM k st.hats
        ∨ (lookupM k st.hats = none
           ∧ lookupM k (seedOne labels st d).hats = some (-1)) := by
      rw [seedOne]
      cases d.kind with
      | axis => exact Or.inl rfl
      | button => exact Or.inl rfl
      | hat => exact lookupM_orInsertM_cases _ _ _ _
    have hrest := ih (seedOne labels st d) k
    rw [seed_neutral, List.foldl_cons] at *
    rcases hrest with h | ⟨hnone, hsome⟩
    · rcases hstep with h2 | ⟨h2none, h2some⟩
      · exact Or.inl (h.trans h2)
      · exact Or.inr ⟨h2none, h.trans h2some⟩
    · rcases hstep with h2 | ⟨h2none, h2some⟩
      · exact Or.inr ⟨h2 ▸ hnone, hsome⟩
      · exact Or.inr ⟨h2none, hsome⟩

theorem rescanLoop_states_lookup (old_states : List (String × DeviceState)) :
    ∀ (l : List Probed) (acc : RescanAcc) (id : String),
    lookupM id (rescanLoop old_states l acc).states = lookupM id acc.states
    ∨ ∃ d ∈ l, d.id = id ∧
      lookupM id (rescanLoop old_states l acc).states
        = some (seed_neutral ((lookupM d.id old_states).getD DeviceState.empty)
            (build_labels d.descs) d.descs) := by
  intro l
  induction l with
  | nil => intro acc id; exact Or.inl rfl
  | cons d rest ih =>
    intro acc id
    rw [rescanLoop]
    rcases ih _ id with h | ⟨d', hd', hid', heq'⟩
    · by_cases hd : d.id = id
      · right
        refine ⟨d, List.mem_cons_self _ _, hd, ?_⟩
        rw [h]
        subst hd
        exact lookupM_insertM_self _ _ _
      · left
        rw [h]
        exact lookupM_insertM_ne _ _ hd
    · exact Or.inr ⟨d', List.mem_cons_of_mem _ hd', hid', heq'⟩

theorem rescanLoop_infos (old_states : List (String × DeviceState)) :
    ∀ (l : List Probed) (acc : RescanAcc),
    (rescanLoop old_states l acc).infos
      = acc.infos ++ l.map (fun d => ManagedInfo.mk d.id d.name) := by
  intro l
  induction l with
  | nil => intro acc; simp [rescanLoop]
  | cons d rest ih =>
    intro acc
    rw [rescanLoop, ih]
    simp

/-- C6: across a rescan, for every device id present both before and after,
each sub-map of its `DeviceState` keeps every previously present value, and
any key it did not have before holds the neutral value (`0.0` for axes,
`false` for buttons, `-1` for hats) — the old state is carried forward and
neutral is seeded only for newly described channels.  Ids present before but
not after are exactly the members of `RescanReport.removed`; ids present
only after are exactly the ids of `RescanReport.added`. -/
theorem rescan_spec (m : ManagerState) (new_devs : List Probed) :
    (∀ id stOld stNew,
      lookupM id m.states = some stOld →
      lookupM id (rescan m new_devs).1.states = some stNew →
      (∀ k, lookupM k stNew.axes = lookupM k stOld.axes
        ∨ (lookupM k stOld.axes = none ∧ lookupM k stNew.axes = some 0))
      ∧ (∀ k, lookupM k stNew.buttons = lookupM k stOld.buttons
        ∨ (lookupM k stOld.buttons = none ∧ lookupM k stNew.buttons = some false))
      ∧ (∀ k, lookupM k stNew.hats = lookupM k stOld.hats
        ∨ (lookupM k stOld.hats = none ∧ lookupM k stNew.hats = some (-1))))
    ∧ (∀ id, id ∈ (rescan m new_devs).2.removed
        ↔ (id ∈ m.infos.map ManagedInfo.id
           ∧ id ∉ (rescan m new_devs).1.infos.map ManagedInfo.id))
    ∧ (∀ inf, inf ∈ (rescan m new_devs).2.added
        ↔ (inf ∈ (rescan m new_devs).1.infos
           ∧ inf.id ∉ m.infos.map ManagedInfo.id)) := by
  refine ⟨?_, ?_, ?_⟩
  · intro id stOld stNew hOld hNew
    have hloop := rescanLoop_states_lookup m.states new_devs
      (RescanAcc.mk [] [] [] []) id
    have hNew' : lookupM id
        (rescanLoop m.states new_devs (RescanAcc.mk [] [] [] [])).states
        = some stNew := hNew
    rcases hloop with h | ⟨d, _, hid, heq⟩
    · rw [hNew'] at h
      exact absurd h.symm (by simp [lookupM])
    · rw [hNew'] at heq
      injection heq with heq
      subst hid
      rw [hOld] at heq
      simp only [Option.getD_some] at heq
      subst heq
      exact ⟨fun k => seed_neutral_axes_lookup (build_labels d.descs) d.descs stOld k,
        fun k => seed_neutral_buttons_lookup (build_labels d.descs) d.descs stOld k,
        fun k => seed_neutral_hats_lookup (build_labels d.descs) d.descs stOld k⟩
  · intro id
    simp only [rescan, List.mem_filter, decide_eq_true_eq]
  · intro inf
    simp only [rescan, List.mem_filter, decide_eq_true_eq]

/-- The manager before the witness rescan: devices `A` (hat `h0` at slot 3)
and `B`. -/
noncomputable def rescanWitnessManager : ManagerState :=
  ManagerState.mk []
    [("A", DeviceState.mk [] [] [("h0", 3)]), ("B", DeviceState.empty)]
    [ManagedInfo.mk "A" "A", ManagedInfo.mk "B" "B"] [] []

/-- The probe result for the witness rescan: only `A`, describing one hat. -/
def rescanWitnessProbe : List Probed :=
  [Probed.mk "A" "A" [ChannelDesc.mk ChannelKind.hat 0 (some "h0") 0 7 none none]]

/-- Witness for C6 on a concrete rescan: before, devices `A` and `B` (with
`A`'s hat `h0` at slot `3`); after, only `A` with the same described hat.
`A`'s stored hat value survives re-seeding, and `B` lands in `removed`. -/
theorem rescan_spec_witness :
    "B" ∈ (rescan rescanWitnessManager rescanWitnessProbe).2.removed
    ∧ (lookupM "h0" (DeviceState.mk [] [] [("h0", (3:ℤ))]).hats
        = lookupM "h0" (DeviceState.mk [] [] [("h0", (3:ℤ))]).hats
      ∨ (lookupM "h0" (DeviceState.mk [] [] [("h0", (3:ℤ))]).hats = none
        ∧ lookupM "h0" (DeviceState.mk [] [] [("h0", (3:ℤ))]).hats = some (-1))) := by
  constructor
  · apply ((rescan_spec rescanWitnessManager rescanWitnessProbe).2.1 "B").mpr
    have hnew : (rescan rescanWitnessManager rescanWitnessProbe).1.infos
        = [ManagedInfo.mk "A" "A"] := rfl
    constructor
    · simp [rescanWitnessManager]
    · rw [hnew]
      simp
  · exact ((rescan_spec rescanWitnessManager rescanWitnessProbe).1 "A"
      (DeviceState.mk [] [] [("h0", 3)]) (DeviceState.mk [] [] [("h0", 3)])
      rfl rfl).2.2 "h0"

/-! ## `DeviceFingerprint` (`src/device.rs`, lines 29–55) -/

/-- `path.replace('\\', "/")`: normalize path separators. -/
def normSlashes (s : String) : String :=
  String.mk (s.toList.map (fun c => if c = '\\' then '/' else c))

/-- Splitting a character list at every `'/'` (the segments `rsplit('/')`
iterates, in forward order). -/
def splitSlash : List Char → List (List Char)
  | [] => [[]]
  | c :: cs =>
    match splitSlash cs with
    | [] => [[]]
    | s :: ss => if c = '/' then [] :: s :: ss else (c :: s) :: ss

/-- `norm.rsplit('/').next().unwrap_or(norm)`: the last `'/'`-separated
segment (`rsplit` iterates segments from the end, so `next()` is the last
forward segment; the fallback never fires since a split is never empty). -/
def lastSegment (s : String) : String :=
  String.mk ((splitSlash s.toList).getLastD s.toList)

/-- The `{:04x}` rendering: lowercase hex (`Nat.toDigits 16` uses lowercase
digit characters), zero-padded on the left to width 4. -/
def hex4 (n : ℕ) : String :=
  let ds := Nat.toDigits 16 n
  String.mk (List.replicate (4 - ds.length) '0' ++ ds)

/-- `DeviceFingerprint` (`device.rs` lines 30–35). -/
structure DeviceFingerprint where
  vendor_id : ℕ
  product_id : ℕ
  serial_number : Option String
  path : Option String

/-- `DeviceFingerprint::to_string` (`device.rs` lines 44–54). -/
def DeviceFingerprint.to_string (fp : DeviceFingerprint) : String :=
  match fp.serial_number with
  | some serial => hex4 fp.vendor_id ++ ":" ++ hex4 fp.product_id ++ ":" ++ serial
  | none =>
    match fp.path with
    | some path =>
      let norm := normSlashes path
      let seg := lastSegment norm
      hex4 fp.vendor_id ++ ":" ++ hex4 fp.product_id ++ "@" ++ seg
    | none => hex4 fp.vendor_id ++ ":" ++ hex4 fp.product_id

/-- The spec's "last path segment": the suffix of the normalized path after
its last separator (written independently of `splitSlash`). -/
def lastSegmentSpec (s : String) : String :=
  String.mk ((s.toList.reverse.takeWhile (fun c => c != '/')).reverse)

/-- The claim's rendering, written from the spec's words: `vid:pid:serial`
when a serial is present, else `vid:pid@<last-path-segment>` of the
normalized path, else `vid:pid`. -/
def fingerprintKeySpec (fp : DeviceFingerprint) : String :=
  match fp.serial_number with
  | some serial => hex4 fp.vendor_id ++ ":" ++ hex4 fp.product_id ++ ":" ++ serial
  | none =>
    match fp.path with
    | some path =>
      hex4 fp.vendor_id ++ ":" ++ hex4 fp.product_id ++ "@"
        ++ lastSegmentSpec (normSlashes path)
    | none => hex4 fp.vendor_id ++ ":" ++ hex4 fp.product_id

theorem splitSlash_ne_nil : ∀ l : List Char, splitSlash l ≠ [] := by
  intro l
  cases l with
  | nil => simp [splitSlash]
  | cons c cs =>
    cases h : splitSlash cs with
    | nil => simp [splitSlash, h]
    | cons s ss =>
      simp only [splitSlash, h]
      split <;> simp

theorem splitSlash_cons_shape (cs : List Char) :
    ∃ s ss, splitSlash cs = s :: ss := by
  cases h : splitSlash cs with
  | nil => exact absurd h (splitSlash_ne_nil cs)
  | cons s ss => exact ⟨s, ss, rfl⟩

theorem splitSlash_no_slash : ∀ cs : List Char, ('/' : Char) ∉ cs →
    splitSlash cs = [cs] := by
  intro cs
  induction cs with
  | nil => intro _; rfl
  | cons c cs' ih =>
    intro h
    have hc : c ≠ '/' := fun hc => h (hc ▸ List.mem_cons_self _ _)
    have hcs : ('/' : Char) ∉ cs' := fun hm => h (List.mem_cons_of_mem _ hm)
    simp only [splitSlash, ih hcs]
    rw [if_neg (fun hc' => hc hc')]

theorem splitSlash_singleton : ∀ (cs s : List Char), splitSlash cs = [s] →
    s = cs ∧ ('/' : Char) ∉ cs := by
  intro cs
  induction cs with
  | nil =>
    intro s h
    rw [splitSlash] at h
    injection h with h1 _
    exact ⟨h1.symm, by simp⟩
  | cons c cs' ih =>
    intro s h
    obtain ⟨s', ss', hss'⟩ := splitSlash_cons_shape cs'
    have hsplit : splitSlash (c :: cs')
        = if c = '/' then [] :: s' :: ss' else (c :: s') :: ss' := by
      simp only [splitSlash, hss']
    rw [hsplit] at h
    by_cases hc : c = '/'
    · rw [if_pos hc] at h
      exact absurd h (by simp)
    · rw [if_neg hc] at h
      injection h with h1 h2
      obtain ⟨rfl, hno⟩ := ih s' (by rw [hss', h2])
      refine ⟨h1.symm, ?_⟩
      intro hmem
      rcases List.mem_cons.mp hmem with h' | h'
      · exact hc h'.symm
      · exact hno h'

theorem takeWhile_append_last (p : Char → Bool) (xs : List Char) (x : Char)
    (hx : p x = false) : (xs ++ [x]).takeWhile p = xs.takeWhile p := by
  induction xs with
  | nil => simp [List.takeWhile_cons, hx]
  | cons y ys ih =>
    rw [List.cons_append, List.takeWhile_cons, List.takeWhile_cons]
    cases hy : p y <;> simp [ih]

theorem takeWhile_all (p : Char → Bool) :
    ∀ l : List Char, (∀ y ∈ l, p y = true) → l.takeWhile p = l := by
  intro l
  induction l with
  | nil => intro _; rfl
  | cons y ys ih =>
    intro h
    rw [List.takeWhile_cons, if_pos (h y (List.mem_cons_self _ _))]
    rw [ih (fun z hz => h z (List.mem_cons_of_mem _ hz))]

theorem takeWhile_append_of_mem_false (p : Char → Bool) (ys : List Char) :
    ∀ xs : List Char, (∃ y ∈ xs, p y = false) →
    (xs ++ ys).takeWhile p = xs.takeWhile p := by
  intro xs
  induction xs with
  | nil =>
    intro h
    obtain ⟨y, hy, _⟩ := h
    exact absurd hy (by simp)
  | cons z zs ih =>
    intro h
    rw [List.cons_append, List.takeWhile_cons, List.takeWhile_cons]
    cases hz : p z with
    | false => simp
    | true =>
      simp only [if_true]
      rw [ih ?_]
      obtain ⟨y, hy, hpy⟩ := h
      rcases List.mem_cons.mp hy with rfl | hmem
      · rw [hz] at hpy
        exact absurd hpy (by simp)
      · exact ⟨y, hmem, hpy⟩

theorem splitSlash_getLastD (l : List Char) :
    (splitSlash l).getLastD l
      = (l.reverse.takeWhile (fun c => c != '/')).reverse := by
  induction l with
  | nil => rfl
  | cons c cs ih =>
    obtain ⟨s, ss, hss⟩ := splitSlash_cons_shape cs
    have hsplit : splitSlash (c :: cs)
        = if c = '/' then [] :: s :: ss else (c :: s) :: ss := by
      simp only [splitSlash, hss]
    have hpfalse : (fun x => x != '/') '/' = false := by simp
    by_cases hc : c = '/'
    · rw [hsplit, if_pos hc]
      subst hc
      rw [List.getLastD_cons]
      have hdef : (s :: ss).getLastD ([] : List Char) = (s :: ss).getLastD cs := by
        rw [List.getLastD_cons, List.getLastD_cons]
      rw [hdef, ← hss, ih, List.reverse_cons,
        takeWhile_append_last (fun x => x != '/') cs.reverse '/' hpfalse]
    · rw [hsplit, if_neg hc]
      cases ss with
      | nil =>
        obtain ⟨rfl, hno⟩ := splitSlash_singleton cs s hss
        show c :: s = _
        have hall : ∀ y ∈ s.reverse ++ [c], (fun x => x != '/') y = true := by
          intro y hy
          rcases List.mem_append.mp hy with h' | h'
          · have : y ∈ s := List.mem_reverse.mp h'
            simp only [bne_iff_ne, ne_eq]
            intro hy'
            exact hno (hy' ▸ this)
          · have : y = c := by simpa using h'
            subst this
            simpa using hc
        rw [List.reverse_cons, takeWhile_all (fun x => x != '/') _ hall]
        simp
      | cons t ts =>
        have hslash : ('/' : Char) ∈ cs := by
          by_contra hno
          rw [splitSlash_no_slash cs hno] at hss
          injection hss with _ h2
          exact absurd h2.symm (by simp)
        rw [List.getLastD_cons]
        have hstep : (t :: ts).getLastD (c :: s) = (t :: ts).getLastD s := by
          rw [List.getLastD_cons, List.getLastD_cons]
        have hih := ih
        rw [hss, List.getLastD_cons] at hih
        rw [hstep, hih, List.reverse_cons,
          takeWhile_append_of_mem_false (fun x => x != '/') [c] cs.reverse
            ⟨'/', List.mem_reverse.mpr hslash, hpfalse⟩]

theorem lastSegment_eq_spec (s : String) : lastSegment s = lastSegmentSpec s :=
  congrArg String.mk (splitSlash_getLastD s.toList)

/-- C9: `DeviceFingerprint.to_string` is a pure function of the fingerprint
fields, and renders `vid:pid:serial` when a serial is present, else
`vid:pid@<last-path-segment>` of the separator-normalized path, else
`vid:pid`, with vid and pid as 4-digit lowercase hex (width exactly 4 for
every `u16` value; `0x045e` renders as `"045e"`). -/
theorem fingerprint_to_string_spec :
    (∀ fp : DeviceFingerprint, fp.to_string = fingerprintKeySpec fp)
    ∧ (∀ fp1 fp2 : DeviceFingerprint,
        fp1.vendor_id = fp2.vendor_id → fp1.product_id = fp2.product_id →
        fp1.serial_number = fp2.serial_number → fp1.path = fp2.path →
        fp1.to_string = fp2.to_string)
    ∧ (∀ n : ℕ, n < 65536 → (hex4 n).length = 4)
    ∧ hex4 1118 = "045e" := by
  refine ⟨?_, ?_, ?_, ?_⟩
  · intro fp
    obtain ⟨v, p, sn, pa⟩ := fp
    cases sn with
    | some serial => rfl
    | none =>
      cases pa with
      | none => rfl
      | some path =>
        show hex4 v ++ ":" ++ hex4 p ++ "@" ++ lastSegment (normSlashes path) = _
        rw [lastSegment_eq_spec]
        rfl
  · intro fp1 fp2 h1 h2 h3 h4
    obtain ⟨v1, p1, s1, pa1⟩ := fp1
    obtain ⟨v2, p2, s2, pa2⟩ := fp2
    cases h1
    cases h2
    cases h3
    cases h4
    rfl
  · intro n hn
    have hpow : n < 16 ^ 4 := by
      have : (16:ℕ) ^ 4 = 65536 := by norm_num
      rw [this]
      exact hn
    have hlen : (Nat.toDigits 16 n).length ≤ 4 := by
      rw [Nat.toDigits]
      exact Nat.toDigitsCore_length 16 (by norm_num) (n + 1) n 4 hpow (by norm_num)
    show (List.replicate (4 - (Nat.toDigits 16 n).length) '0'
        ++ Nat.toDigits 16 n).length = 4
    rw [List.length_append, List.length_replicate]
    omega
  · decide

/-- Witness for C9 at a concrete value: `0x045e < 0x10000` and its rendering
has width 4. -/
theorem fingerprint_to_string_spec_witness :
    1118 < 65536 ∧ (hex4 1118).length = 4 :=
  ⟨by decide, (fingerprint_to_string_spec).2.2.1 1118 (by decide)⟩

end StickUp
